import Mathlib

/-!
Verification of the core symbol-generation pipeline of `build_lib.py`
(kicad-autogen): pin normalisation, per-unit geometry, field emission,
pin drawing and library assembly, shallowly embedded in Lean.

Python integer division and modulus with a positive divisor are floor
division with a remainder in `[0, d)`; for a positive divisor these agree
with Lean's `Int` division `/` (`Int.ediv`) and `%` (`Int.emod`), which is
what the embedding uses throughout (all divisors in the source are the
positive constants 2, 100).

Python expressions that can raise are embedded in `Option` (geometry
pipeline, where only `max()` of an empty sequence and `len()` of an
integer can raise) or in `Except PyErr` (pin normalisation, where the
distinction between `ValueError`, `IndexError` and `TypeError` matters).
-/

namespace KicadAutogen

/-- Kinds of Python exception relevant to `normalise_pins`:
`ValueError` (the explicit `raise ValueError("Invalid pins")`, the spec's
MalformedPinsError), `IndexError` (subscript out of range) and
`TypeError` (subscripting / `len` of a non-sequence). -/
inductive PyErr
  | valueError
  | indexError
  | typeError
deriving DecidableEq, Repr

/-- Values that a pin name or pin number may take in the YAML input:
"Number and name may be given as a string or an integer." -/
inductive StrOrInt
  | str (s : String)
  | int (n : Int)
deriving DecidableEq, Repr

/-- Python `str()` applied to a name or number. -/
def pyStr : StrOrInt → String
  | .str s => s
  | .int n => toString n

/-- Electrical pin types, the fixed enumerated set from the docstring:
in, out, bidi, tri, passive, unspec, pwrin, pwrout, oc, od, oe, os, nc. -/
inductive ElecType
  | inp | out | bidi | tri | passive | unspec | pwrin | pwrout
  | oc | od | oe | os | nc
deriving DecidableEq, Repr

/-- The `pin_types` lookup table mapping electrical type to render code. -/
def pin_types : ElecType → String
  | .inp => "I"
  | .out => "O"
  | .bidi => "B"
  | .tri => "T"
  | .passive => "P"
  | .unspec => "U"
  | .pwrin => "W"
  | .pwrout => "w"
  | .oc => "C"
  | .od => "C"
  | .oe => "E"
  | .os => "E"
  | .nc => "N"

/-- A pin `(name, number, electrical type)`. -/
structure Pin where
  name : StrOrInt
  num : StrOrInt
  typ : ElecType
deriving DecidableEq, Repr

/-- A group is a list of pins; a side is a list of groups; a unit is a
`(left side, right side)` pair, the normalised form produced by
`normalise_pins`. -/
abbrev PinUnit := List (List Pin) × List (List Pin)

/-- Python `max()` over a list: raises (`none`) on an empty sequence,
otherwise the maximum. -/
def pyMax : List Int → Option Int
  | [] => none
  | x :: xs => some (xs.foldl max x)

/-- Evaluate a possibly-raising function over every element of a list, in
order, propagating the first failure (embeds a Python list comprehension
whose body may raise). -/
def mapOption {α β : Type} (f : α → Option β) : List α → Option (List β)
  | [] => some []
  | x :: xs => do
      let y ← f x
      let ys ← mapOption f xs
      pure (y :: ys)

/-- Python `len(p[0])` for a pin name: `len` of a string is its length,
`len` of an integer raises `TypeError` (`none`). -/
def nameLen (p : Pin) : Option Int :=
  match p.name with
  | .str s => some (s.length : Int)
  | .int _ => none

/-- Python `len(str(p[1]))` for a pin number: `str()` always succeeds. -/
def numLen (p : Pin) : Option Int :=
  some ((pyStr p.num).length : Int)

/-- Embeds `max(f(p) for p in grp)`: raises on an empty group. -/
def groupMax (f : Pin → Option Int) (grp : List Pin) : Option Int := do
  pyMax (← mapOption f grp)

/-- Embeds `max([0] + [max(f(p) for p in grp) for grp in side])`: the
`[0]` seed means a side with no groups contributes 0. -/
def sideMax (f : Pin → Option Int) (side : List (List Pin)) : Option Int := do
  pyMax (0 :: (← mapOption (groupMax f) side))

/-- `longest_num(units)` from the source: the longest rendered pin-number
string across every group, every side, every unit (lines 57-61). The
outer `max` raises on an empty unit list. -/
def longest_num (units : List PinUnit) : Option Int := do
  pyMax (← mapOption (fun u => do
    let l ← sideMax numLen u.1
    let r ← sideMax numLen u.2
    pure (max l r)) units)

/-- `length = max(100, longest_num * 50)` (line 67). -/
def stubLength (n : Int) : Int := max 100 (n * 50)

/-- The width computation of `geometry` (lines 74-82):
`width = (longest_name + 1) * 50`, then `width += width % 100`, doubled
when both sides have pins, then the grid-alignment nudge
`width += 2 * (((width//2)+length) % 100)` when `((width//2)+length)` is
not already a multiple of 100. -/
def widthCalc (longest_name length : Int) (dual : Bool) : Int :=
  let w0 := (longest_name + 1) * 50
  let w1 := w0 + w0 % 100
  let w2 := if dual then w1 * 2 else w1
  if (w2 / 2 + length) % 100 ≠ 0 then w2 + 2 * ((w2 / 2 + length) % 100) else w2

/-- The height computation of `geometry` (lines 84-96):
`height = 100 * max(n_left_pins + n_left_groups - 1,
n_right_pins + n_right_groups - 1)`, then `height += 100` when
`(height // 100) % 2 == 0`. -/
def heightCalc (left_pins right_pins : List (List Pin)) : Int :=
  let n_left_pins : Int := ((left_pins.map List.length).sum : Nat)
  let n_right_pins : Int := ((right_pins.map List.length).sum : Nat)
  let n_left_groups : Int := (left_pins.length : Nat)
  let n_right_groups : Int := (right_pins.length : Nat)
  let height := 100 * max (n_left_pins + n_left_groups - 1)
                          (n_right_pins + n_right_groups - 1)
  if (height / 100) % 2 = 0 then height + 100 else height

/-- `geometry(unit, longest_num)` (lines 64-98). The longest pin name
over both sides is computed first (it raises on an empty group or an
integer name, via `len`); the function then returns
`(width, height, length)`. -/
def geometry (unit : PinUnit) (longest_num : Int) : Option (Int × Int × Int) :=
  match sideMax nameLen unit.1, sideMax nameLen unit.2 with
  | some a, some b =>
      some (widthCalc (max a b) (stubLength longest_num)
              (!unit.1.isEmpty && !unit.2.isEmpty),
            heightCalc unit.1 unit.2,
            stubLength longest_num)
  | _, _ => none

/-! ### Pin normalisation (`normalise_pins`, lines 101-132)

The raw `pins` value from YAML is dynamically typed; it is embedded as a
small universe `PyVal` of the Python values that can occur (`None`,
integers, strings, nested lists), with subscripting and `len` as partial
operations raising the corresponding Python exceptions. -/

/-- Dynamically-typed Python values taken by the raw `pins` structure. -/
inductive PyVal
  | vnone
  | vint (n : Int)
  | vstr (s : String)
  | vlist (xs : List PyVal)

/-- Python subscripting `v[i]` for a non-negative index: lists and strings
index their elements (a string yields a one-character string), anything
else raises `TypeError`; an out-of-range index raises `IndexError`. -/
def pySub (v : PyVal) (i : Nat) : Except PyErr PyVal :=
  match v with
  | .vlist xs =>
      match xs.get? i with
      | some x => .ok x
      | none => .error .indexError
  | .vstr s =>
      match s.toList.get? i with
      | some c => .ok (.vstr c.toString)
      | none => .error .indexError
  | _ => .error .typeError

/-- Python `len(v)`: defined for lists and strings, `TypeError` otherwise. -/
def pyLen (v : PyVal) : Except PyErr Int :=
  match v with
  | .vlist xs => .ok (xs.length : Int)
  | .vstr s => .ok (s.length : Int)
  | _ => .error .typeError

/-- Python `isinstance(v, str)`. -/
def isStr : PyVal → Bool
  | .vstr _ => true
  | _ => false

/-- The shape-sniffing prologue of `normalise_pins` (lines 108-118)
together with the `for unit in pins` iteration setup: fetch
`pins[0][0][0]` (falling back to `pins[1][0][0]` when it `is None`),
wrap `pins` in a singleton list when its first sub-element is a string,
and return the list of per-unit values iterated by the loop (iterating a
string yields its one-character strings, any other non-list raises
`TypeError`). -/
def sniff (pins : PyVal) : Except PyErr (List PyVal) := do
  let a ← pySub pins 0
  let b ← pySub a 0
  let fpg0 ← pySub b 0
  let fpg ← match fpg0 with
    | .vnone => do
        let a1 ← pySub pins 1
        let b1 ← pySub a1 0
        pySub b1 0
    | v => pure v
  let c ← pySub fpg 0
  if isStr c then
    pure [pins]
  else
    match pins with
    | .vlist us => pure us
    | .vstr s => pure (s.toList.map (fun ch => .vstr ch.toString))
    | _ => .error .typeError

/-- The body of the `for unit in pins` loop (lines 119-131): one element
of length 1 is a left-only unit, length 2 is right-only when
`unit[0][0][0] is None` and two-sided otherwise, and any other length
raises `ValueError("Invalid pins")` — the spec's MalformedPinsError. -/
def processUnit (unit : PyVal) : Except PyErr (PyVal × PyVal) := do
  let n ← pyLen unit
  if n = 1 then do
    let l ← pySub unit 0
    pure (l, .vlist [])
  else if n = 2 then do
    let a ← pySub unit 0
    let b ← pySub a 0
    let c ← pySub b 0
    match c with
    | .vnone => do
        let r ← pySub unit 1
        pure (.vlist [], r)
    | _ => do
        let l ← pySub unit 0
        let r ← pySub unit 1
        pure (l, r)
  else
    .error .valueError

/-- The `for unit in pins` loop: process each unit in order, stopping at
the first raised exception, returning the accumulated `output` list. -/
def processUnits : List PyVal → Except PyErr (List (PyVal × PyVal))
  | [] => .ok []
  | u :: us => do
      let p ← processUnit u
      let rest ← processUnits us
      pure (p :: rest)

/-- `normalise_pins(pins)` (lines 101-132): shape sniffing followed by the
per-unit loop. -/
def normalise_pins (pins : PyVal) : Except PyErr (List (PyVal × PyVal)) := do
  processUnits (← sniff pins)

/-! ### Typed encodings of pin structures as `PyVal`, for stating claims
about `normalise_pins` on well-formed inputs. -/

/-- Encoding of a name or number. -/
def encVal : StrOrInt → PyVal
  | .str s => .vstr s
  | .int n => .vint n

/-- The YAML string naming each electrical type. -/
def typeName : ElecType → String
  | .inp => "in"
  | .out => "out"
  | .bidi => "bidi"
  | .tri => "tri"
  | .passive => "passive"
  | .unspec => "unspec"
  | .pwrin => "pwrin"
  | .pwrout => "pwrout"
  | .oc => "oc"
  | .od => "od"
  | .oe => "oe"
  | .os => "os"
  | .nc => "nc"

/-- Encoding of a pin as the YAML list `[name, number, type]`. -/
def encPin (p : Pin) : PyVal :=
  .vlist [encVal p.name, encVal p.num, .vstr (typeName p.typ)]

/-- Encoding of a group as a list of pins. -/
def encGroup (g : List Pin) : PyVal := .vlist (g.map encPin)

/-- Encoding of one side as a list of groups. -/
def encSide (gs : List (List Pin)) : PyVal := .vlist (gs.map encGroup)

/-- A single-unit, left-only `pins` structure: the unit is the flat list
`[left_groups]`. -/
def encSingleLeft (gs : List (List Pin)) : PyVal := .vlist [encSide gs]

/-! ### Field emitter (`fields`, lines 135-171) -/

/-- A component descriptor as consumed by `fields` and `library`:
`name` is required, `designator` defaults to "IC", `footprint`,
`datasheet` and `ordercodes` are optional (`ordercodes` defaulting to the
empty list), and `pins` is the raw YAML pin structure. -/
structure Comp where
  name : String
  designator : Option String
  footprint : Option String
  datasheet : Option String
  ordercodes : List (String × String)
  pins : PyVal

/-- The order-code field lines (lines 167-169): for the `idx`-th
`(supplier, code)` pair, emit field index `idx + 4` carrying the code,
one row lower per entry, with the supplier appended as a tag. -/
def ordercodeLines (ocs : List (String × String)) (field_x field_y : Int) :
    List String :=
  ocs.enum.map (fun e =>
    "F" ++ toString (e.1 + 4) ++ " \"" ++ e.2.2 ++ "\" " ++
    toString field_x ++ " " ++ toString (-field_y - (300 + (e.1 : Int) * 100)) ++
    " 50 H I L CNN \"" ++ e.2.1 ++ "\"")

/-- `fields(conf, units)` (lines 135-171): overall width/height are the
maxima over all per-unit geometries, then fields F0 (designator),
F1 (name), F2 (footprint or empty), F3 (datasheet or empty) and the
order-code fields are emitted in that order. -/
def fields (conf : Comp) (units : List PinUnit) : Option (List String) := do
  let n ← longest_num units
  let geoms ← mapOption (fun u => geometry u n) units
  let width ← pyMax (geoms.map (fun g => g.1))
  let height ← pyMax (geoms.map (fun g => g.2.1))
  let field_x := (-width) / 2
  let field_y := height / 2 + 50
  let f0 := "F0 \"" ++ conf.designator.getD "IC" ++ "\" " ++
    toString field_x ++ " " ++ toString field_y ++ " 50 H V L CNN"
  let f1 := "F1 \"" ++ conf.name ++ "\" " ++
    toString field_x ++ " " ++ toString (-field_y) ++ " 50 H V L CNN"
  let f2 := match conf.footprint with
    | some fp => "F2 \"" ++ fp ++ "\" " ++
        toString field_x ++ " " ++ toString (-field_y - 100) ++ " 50 H I L CNN"
    | none => "F2 \"\" " ++
        toString field_x ++ " " ++ toString (-field_y - 100) ++ " 50 H I L CNN"
  let f3 := match conf.datasheet with
    | some ds => "F3 \"" ++ ds ++ "\" " ++
        toString field_x ++ " " ++ toString (-field_y - 200) ++ " 50 H I L CNN"
    | none => "F3 \"\" " ++
        toString field_x ++ " " ++ toString (-field_y - 200) ++ " 50 H I L CNN"
  pure ([f0, f1, f2, f3] ++ ordercodeLines conf.ordercodes field_x field_y)

/-! ### Drawing emitter (`draw_pins` and `draw`, lines 174-215) -/

/-- One pin line
`X name num x y length direction 50 50 unit 0 type` (lines 180-182). -/
def xLine (p : Pin) (x y length : Int) (direction : String) (unit_idx : Int) :
    String :=
  "X " ++ pyStr p.name ++ " " ++ pyStr p.num ++ " " ++
  toString x ++ " " ++ toString y ++ " " ++ toString length ++ " " ++
  direction ++ " 50 50 " ++ toString unit_idx ++ " 0 " ++ pin_types p.typ

/-- The inner pin loop of `draw_pins`: `pin_y` decreases by 100 after each
pin of the group. -/
def drawGroup : List Pin → Int → Int → String → Int → Int → List String
  | [], _, _, _, _, _ => []
  | p :: ps, x, y, d, len, u =>
      xLine p x y len d u :: drawGroup ps x (y - 100) d len u

/-- The outer group loop of `draw_pins` (lines 174-185): after each group
`pin_y` has decreased by 100 per pin plus an extra 100 for the gap. -/
def draw_pins : List (List Pin) → Int → Int → String → Int → Int → List String
  | [], _, _, _, _, _ => []
  | g :: gs, x, y, d, len, u =>
      drawGroup g x y d len u ++
      draw_pins gs x (y - 100 * (g.length : Int) - 100) d len u

/-- The containing-box line
`S -w//2 h//2 w//2 -h//2 unit 1 0 f` (lines 202-203). -/
def sLine (width height unit_idx : Int) : String :=
  "S " ++ toString ((-width) / 2) ++ " " ++ toString (height / 2) ++ " " ++
  toString (width / 2) ++ " " ++ toString ((-height) / 2) ++ " " ++
  toString unit_idx ++ " 1 0 f"

/-- The per-unit body of `draw` (lines 199-212): box, then the left pins
right-pointing from `(-width//2 - length, height//2 - 50)`, then the
right pins left-pointing from the mirrored x origin. -/
def drawUnit (unit : PinUnit) (n : Int) (unit_idx : Int) :
    Option (List String) := do
  let (width, height, length) ← geometry unit n
  let x0 := (-width) / 2 - length
  let y0 := height / 2 - 50
  let lft := if unit.1.isEmpty then [] else draw_pins unit.1 x0 y0 "R" length unit_idx
  let rgt := if unit.2.isEmpty then [] else draw_pins unit.2 (-x0) y0 "L" length unit_idx
  pure (sLine width height unit_idx :: (lft ++ rgt))

/-- The unit loop of `draw`, carrying the `enumerate` index: multi-unit
parts number their units from 1, a single-unit part uses unit 0. -/
def drawUnitsFrom (units : List PinUnit) (n : Int) (multi : Bool) (i : Nat) :
    Option (List String) :=
  match units with
  | [] => some []
  | u :: us => do
      let lines ← drawUnit u n (if multi then (i : Int) + 1 else (i : Int))
      let rest ← drawUnitsFrom us n multi (i + 1)
      pure (lines ++ rest)

/-- `draw(units)` (lines 188-215): `DRAW`, the per-unit boxes and pins,
`ENDDRAW`. -/
def draw (units : List PinUnit) : Option (List String) := do
  let n ← longest_num units
  let body ← drawUnitsFrom units n (decide (1 < units.length)) 0
  pure ("DRAW" :: (body ++ ["ENDDRAW"]))

/-! ### Library assembler (`library`, lines 218-239) -/

/-- The locked flag of the `DEF` line (line 230): `"F"` for a single-unit
part, `"L"` otherwise. -/
def lockedFlag (units : List (PyVal × PyVal)) : String :=
  if units.length = 1 then "F" else "L"

/-- The `DEF` header line (lines 231-232):
`DEF name designator 0 40 Y Y unit_count locked N`. -/
def defLine (elm : Comp) (units : List (PyVal × PyVal)) : String :=
  "DEF " ++ elm.name ++ " " ++ elm.designator.getD "IC" ++ " 0 40 Y Y " ++
  toString units.length ++ " " ++ lockedFlag units ++ " N"

/-- Decoding one normalised `(left, right)` unit back into the typed form
consumed by `geometry`, `fields` and `draw`. In the source the
dynamically-typed unit is passed on directly; the decode succeeds exactly
on units of the well-formed shape (lists of groups of `[name, number,
type]` pins with a known electrical-type string). -/
def decodeVal : PyVal → Option StrOrInt
  | .vstr s => some (.str s)
  | .vint n => some (.int n)
  | _ => none

/-- Decoding of one electrical-type string via the `pin_types` domain. -/
def decodeType (s : String) : Option ElecType :=
  if s = "in" then some .inp
  else if s = "out" then some .out
  else if s = "bidi" then some .bidi
  else if s = "tri" then some .tri
  else if s = "passive" then some .passive
  else if s = "unspec" then some .unspec
  else if s = "pwrin" then some .pwrin
  else if s = "pwrout" then some .pwrout
  else if s = "oc" then some .oc
  else if s = "od" then some .od
  else if s = "oe" then some .oe
  else if s = "os" then some .os
  else if s = "nc" then some .nc
  else none

/-- Decoding of one pin `[name, number, type]`. -/
def decodePin : PyVal → Option Pin
  | .vlist [n, m, .vstr t] => do
      pure ⟨← decodeVal n, ← decodeVal m, ← decodeType t⟩
  | _ => none

/-- Decoding of one side (a list of groups of pins). -/
def decodeSide : PyVal → Option (List (List Pin))
  | .vlist gs => mapOption (fun g =>
      match g with
      | .vlist ps => mapOption decodePin ps
      | _ => none) gs
  | _ => none

/-- Decoding of the full normalised unit list. -/
def decodeUnits (units : List (PyVal × PyVal)) : Option (List PinUnit) :=
  mapOption (fun u => do pure ((← decodeSide u.1), (← decodeSide u.2))) units

/-- The per-component block of `library` (lines 227-237). -/
def libraryComp (elm : Comp) : Option (List String) := do
  let units0 := normalise_pins elm.pins
  match units0 with
  | .error _ => none
  | .ok units => do
      let tunits ← decodeUnits units
      let flds ← fields elm tunits
      let drw ← draw tunits
      pure (("#\n# " ++ elm.name ++ "\n#") :: defLine elm units ::
            (flds ++ drw ++ ["ENDDEF"]))

/-- `library(conf)` (lines 218-239) for a batch of components: header,
per-component blocks, end banner, joined with newlines. -/
def library (conf : List Comp) : Option String := do
  let blocks ← mapOption libraryComp conf
  pure (String.intercalate "\n"
    ("EESchema-LIBRARY Version 2.3" :: "#encoding utf-8" ::
     (blocks.flatten ++ ["#\n#End Library\n"])))

/-! ### Claim-side definitions

The following definitions transcribe the wording of the spec claims (not
the source); the theorems below compare them with the embedded source
functions. -/

/-- Round `x` up to the next multiple of `m` (for positive `m`). -/
def roundUpMultiple (m x : Int) : Int := (x + m - 1) / m * m

/-- Width as claim C3 words it: `(longest-name-length + 1) * 50` rounded
up to a multiple of 200, doubled for dual-sided units, then the
grid-alignment nudge. -/
def specWidthClaim (longest_name length : Int) (dual : Bool) : Int :=
  let w0 := roundUpMultiple 200 ((longest_name + 1) * 50)
  let w1 := if dual then w0 * 2 else w0
  if (w1 / 2 + length) % 100 ≠ 0 then w1 + 2 * ((w1 / 2 + length) % 100) else w1

/-- Width as the amended claim C3 words it: identical except that the
base is rounded up to a multiple of 100, not 200. -/
def specWidthAmended (longest_name length : Int) (dual : Bool) : Int :=
  let w0 := roundUpMultiple 100 ((longest_name + 1) * 50)
  let w1 := if dual then w0 * 2 else w0
  if (w1 / 2 + length) % 100 ≠ 0 then w1 + 2 * ((w1 / 2 + length) % 100) else w1

/-- Height as claim C2 words it: `100 × max(left-pin-count +
left-group-count − 1, right-pin-count + right-group-count − 1)`, with 100
more when that row count is even. -/
def heightSpec (left_pins right_pins : List (List Pin)) : Int :=
  let rows := max (((left_pins.map List.length).sum : Int) + (left_pins.length : Int) - 1)
                  (((right_pins.map List.length).sum : Int) + (right_pins.length : Int) - 1)
  if Even rows then 100 * rows + 100 else 100 * rows

/-- The four fixed field lines of claim C5: indices 0-3 in order, with the
footprint and datasheet texts replaced by the empty string when absent. -/
def specFieldHeader (conf : Comp) (field_x field_y : Int) : List String :=
  [ "F0 \"" ++ conf.designator.getD "IC" ++ "\" " ++
      toString field_x ++ " " ++ toString field_y ++ " 50 H V L CNN",
    "F1 \"" ++ conf.name ++ "\" " ++
      toString field_x ++ " " ++ toString (-field_y) ++ " 50 H V L CNN",
    "F2 \"" ++ conf.footprint.getD "" ++ "\" " ++
      toString field_x ++ " " ++ toString (-field_y - 100) ++ " 50 H I L CNN",
    "F3 \"" ++ conf.datasheet.getD "" ++ "\" " ++
      toString field_x ++ " " ++ toString (-field_y - 200) ++ " 50 H I L CNN" ]

/-- Pins of one group paired with their grid-row index, starting at row
`r`: successive pins of a group occupy successive rows, in input order
(claim C6). -/
def groupRows : List Pin → Nat → List (Pin × Nat)
  | [], _ => []
  | p :: ps, r => (p, r) :: groupRows ps (r + 1)

/-- Pins of a whole side paired with their grid-row index: groups in
input order, each group followed by one extra (gap) row (claim C6). -/
def flatRows : List (List Pin) → Nat → List (Pin × Nat)
  | [], _ => []
  | g :: gs, r => groupRows g r ++ flatRows gs (r + g.length + 1)

/-- Recognises the sentinel empty-left marker of the right-only per-unit
form: a first list whose first group starts with `None`. -/
def isEmptyMarker : PyVal → Bool
  | .vlist (.vlist (.vnone :: _) :: _) => true
  | _ => false

/-- Recognises a populated (non-empty) list. -/
def isPopulatedList : PyVal → Bool
  | .vlist (_ :: _) => true
  | _ => false

/-- The three accepted per-unit forms of claim C7: a single list
(left-only), two lists whose first is the empty marker (right-only), or
two populated lists (both sides). -/
def matchesAcceptedForm : PyVal → Bool
  | .vlist [_] => true
  | .vlist [a, b] => isEmptyMarker a || (isPopulatedList a && isPopulatedList b)
  | _ => false

/-- True when a pin's name was given as a string (not an integer). -/
def isStrVal : StrOrInt → Bool
  | .str _ => true
  | .int _ => false

/-! ### Helper lemmas -/

/-- Destructuring a successful `geometry` call into its components. -/
theorem geometry_eq_some {u : PinUnit} {n w h l : Int}
    (hg : geometry u n = some (w, h, l)) :
    ∃ a b, sideMax nameLen u.1 = some a ∧ sideMax nameLen u.2 = some b ∧
      w = widthCalc (max a b) (stubLength n) (!u.1.isEmpty && !u.2.isEmpty) ∧
      h = heightCalc u.1 u.2 ∧ l = stubLength n := by
  cases ha : sideMax nameLen u.1 with
  | none => simp [geometry, ha] at hg
  | some a =>
    cases hb : sideMax nameLen u.2 with
    | none => simp [geometry, ha, hb] at hg
    | some b =>
      simp only [geometry, ha, hb, Option.some.injEq, Prod.mk.injEq] at hg
      exact ⟨a, b, rfl, rfl, hg.1.symm, hg.2.1.symm, hg.2.2.symm⟩

/-- The stub length is always a multiple of 50. -/
theorem stubLength_mod50 (n : Int) : stubLength n % 50 = 0 := by
  unfold stubLength
  rcases max_cases (100 : Int) (n * 50) with ⟨h, _⟩ | ⟨h, _⟩ <;> rw [h] <;> omega

/-- The computed width keeps the pin endpoints on the 0.1-inch grid: for
any stub length that is a multiple of 50, `width/2 + length` is a
multiple of 100 after the nudge. -/
theorem widthCalc_align (N L : Int) (d : Bool) (hL : L % 50 = 0) :
    (widthCalc N L d / 2 + L) % 100 = 0 := by
  unfold widthCalc
  cases d <;> simp only [Bool.false_eq_true, if_false, if_true] <;> split <;> omega

/-- The source width computation agrees with the amended-claim wording
(round up to a multiple of 100, double for dual-sided, then nudge). -/
theorem widthCalc_eq_amended (N L : Int) (d : Bool) :
    widthCalc N L d = specWidthAmended N L d := by
  unfold widthCalc specWidthAmended roundUpMultiple
  cases d <;> simp only [Bool.false_eq_true, if_false, if_true] <;>
    split <;> split <;> omega

/-- The source height computation agrees with the claim-C2 wording. -/
theorem heightCalc_eq_spec (l r : List (List Pin)) :
    heightCalc l r = heightSpec l r := by
  unfold heightCalc heightSpec
  dsimp only
  generalize (max (((l.map List.length).sum : Int) + (l.length : Int) - 1)
      (((r.map List.length).sum : Int) + (r.length : Int) - 1)) = M
  have hdiv : 100 * M / 100 = M := by omega
  rw [hdiv]
  by_cases hM : M % 2 = 0
  · rw [if_pos hM, if_pos (Int.even_iff.mpr hM)]
  · rw [if_neg hM, if_neg (fun he => hM (Int.even_iff.mp he))]

/-! ### Claim theorems -/

/-- C1: grid-alignment invariant. For every unit and every shared
longest-number length, whenever `geometry` returns a `(width, height,
stub-length)` triple, `(width / 2 + stub-length) % 100 = 0`; in
particular this holds for every combination of longest-pin-name length
and longest-pin-number length. -/
theorem c1_grid_alignment (unit : PinUnit) (n w h l : Int)
    (hg : geometry unit n = some (w, h, l)) :
    (w / 2 + l) % 100 = 0 := by
  obtain ⟨a, b, _, _, hw, _, hl⟩ := geometry_eq_some hg
  rw [hw, hl]
  exact widthCalc_align _ _ _ (stubLength_mod50 n)

/-- Witness for C1 at a concrete unit: one left group of one pin named
"A" numbered "1", with longest-number length 1. -/
theorem c1_grid_alignment_witness :
    geometry ([[⟨.str "A", .str "1", .inp⟩]], ([] : List (List Pin))) 1 =
        some (200, 100, 100) ∧
      ((200 : Int) / 2 + 100) % 100 = 0 :=
  ⟨by decide,
   c1_grid_alignment ([[⟨.str "A", .str "1", .inp⟩]], ([] : List (List Pin)))
     1 200 100 100 (by decide)⟩

/-- C2: the height returned by `geometry` is `100 × max(left-pin-count +
left-group-count − 1, right-pin-count + right-group-count − 1)`, plus 100
when that row count is even, and is therefore always an odd multiple of
100. -/
theorem c2_height_formula (unit : PinUnit) (n w h l : Int)
    (hg : geometry unit n = some (w, h, l)) :
    h = heightSpec unit.1 unit.2 ∧ ∃ k : Int, Odd k ∧ h = 100 * k := by
  obtain ⟨a, b, _, _, _, hh, _⟩ := geometry_eq_some hg
  subst hh
  refine ⟨heightCalc_eq_spec _ _, ?_⟩
  unfold heightCalc
  dsimp only
  generalize (max (((unit.1.map List.length).sum : Int) + (unit.1.length : Int) - 1)
      (((unit.2.map List.length).sum : Int) + (unit.2.length : Int) - 1)) = M
  split
  · exact ⟨M + 1, Int.odd_iff.mpr (by omega), by ring⟩
  · exact ⟨M, Int.odd_iff.mpr (by omega), rfl⟩

/-- Witness for C2 at a concrete unit: one left group of two pins gives
2 + 1 − 1 = 2 rows, an even count, so the height is bumped to 300 =
100 × 3. -/
theorem c2_height_formula_witness :
    geometry ([[⟨.str "A", .str "1", .inp⟩, ⟨.str "B", .str "2", .inp⟩]],
        ([] : List (List Pin))) 1 = some (200, 300, 100) ∧
      (300 : Int) = heightSpec [[⟨.str "A", .str "1", .inp⟩, ⟨.str "B", .str "2", .inp⟩]]
        ([] : List (List Pin)) ∧
      ∃ k : Int, Odd k ∧ (300 : Int) = 100 * k :=
  ⟨by decide,
   (c2_height_formula ([[⟨.str "A", .str "1", .inp⟩, ⟨.str "B", .str "2", .inp⟩]],
      ([] : List (List Pin))) 1 200 300 100 (by decide)).1,
   (c2_height_formula ([[⟨.str "A", .str "1", .inp⟩, ⟨.str "B", .str "2", .inp⟩]],
      ([] : List (List Pin))) 1 200 300 100 (by decide)).2⟩

/-- Counterexample to C3 as stated: for the unit with one left pin named
"NAME" (4 characters) and number "123" (3 characters, so stub length
150), the source computes width 300, while the claim's formula — round
`(4 + 1) × 50 = 250` up to a multiple of 200, no doubling, then the
nudge — yields 500. -/
theorem c3_width_counterexample :
    longest_num [([[⟨.str "NAME", .str "123", .inp⟩]], ([] : List (List Pin)))] =
        some 3 ∧
      geometry ([[⟨.str "NAME", .str "123", .inp⟩]], ([] : List (List Pin))) 3 =
        some (300, 100, 150) ∧
      specWidthClaim 4 150 false = 500 ∧ (300 : Int) ≠ 500 := by
  refine ⟨by decide, by decide, by decide, by decide⟩

/-- C3 amended: the computed width equals `(longest-name-length + 1) × 50`
rounded up to a multiple of 100 (not 200), doubled when the unit has
non-empty pin groups on both sides, then increased only by the
grid-alignment nudge. -/
theorem c3_width_formula (unit : PinUnit) (n w h l a b : Int)
    (hg : geometry unit n = some (w, h, l))
    (ha : sideMax nameLen unit.1 = some a)
    (hb : sideMax nameLen unit.2 = some b) :
    w = specWidthAmended (max a b) l (!unit.1.isEmpty && !unit.2.isEmpty) := by
  obtain ⟨a', b', ha', hb', hw, _, hl⟩ := geometry_eq_some hg
  rw [ha'] at ha
  rw [hb'] at hb
  cases ha
  cases hb
  rw [hw, hl]
  exact widthCalc_eq_amended _ _ _

/-- Witness for C3 amended at a concrete dual-sided unit: longest name
3 characters, stub 100, so width = roundup100(200) × 2 = 400, and the
nudge does not fire. -/
theorem c3_width_formula_witness :
    geometry ([[⟨.str "ABC", .str "1", .inp⟩]], [[⟨.str "Z", .str "2", .out⟩]]) 1 =
        some (400, 100, 100) ∧
      (400 : Int) = specWidthAmended (max 3 1) 100 true :=
  ⟨by decide,
   c3_width_formula ([[⟨.str "ABC", .str "1", .inp⟩]], [[⟨.str "Z", .str "2", .out⟩]])
     1 400 100 100 3 1 (by decide) (by decide) (by decide)⟩

/-- C10: for a unit whose left and right group lists are both empty, the
geometry height is `100 × max(0 + 0 − 1, 0 + 0 − 1) = −100` for every
stub basis (−1 is an odd row count, so no correction is applied), the
returned height is negative, and the emitted bounding box
`S -100 -50 100 50` has its top edge (y = −50) below its bottom edge
(y = 50). -/
theorem c10_empty_unit_negative_height :
    (∀ n : Int, (geometry (([], []) : PinUnit) n).map (fun t => t.2.1) =
        some (-100)) ∧
      geometry (([], []) : PinUnit) 0 = some (200, -100, 100) ∧
      (-100 : Int) < 0 ∧
      draw [(([], []) : PinUnit)] =
        some ["DRAW", "S -100 -50 100 50 0 1 0 f", "ENDDRAW"] ∧
      (-100 : Int) / 2 < -((-100 : Int) / 2) :=
  ⟨fun _ => rfl, by decide, by decide, by rfl, by decide⟩

/-- A `mapOption` over elements where the function always succeeds
returns a list of the same length. -/
theorem mapOption_isSome {α β : Type} (f : α → Option β) :
    ∀ xs : List α, (∀ x ∈ xs, (f x).isSome) →
      ∃ ys, mapOption f xs = some ys ∧ ys.length = xs.length := by
  intro xs
  induction xs with
  | nil => exact fun _ => ⟨[], rfl, rfl⟩
  | cons x xs ih =>
    intro h
    obtain ⟨y, hy⟩ := Option.isSome_iff_exists.mp (h x (by simp))
    obtain ⟨ys, hys, hlen⟩ := ih (fun a ha => h a (by simp [ha]))
    exact ⟨y :: ys, by simp [mapOption, hy, hys], by simp [hlen]⟩

/-- A side whose groups are all non-empty, with an everywhere-defined
measure, has a defined side maximum. -/
theorem sideMax_isSome (f : Pin → Option Int) (side : List (List Pin))
    (hg : ∀ g ∈ side, g ≠ []) (hf : ∀ g ∈ side, ∀ p ∈ g, (f p).isSome) :
    (sideMax f side).isSome := by
  have hgm : ∀ g ∈ side, (groupMax f g).isSome := by
    intro g hgmem
    obtain ⟨ys, hys, hlen⟩ := mapOption_isSome f g (hf g hgmem)
    cases g with
    | nil => exact absurd rfl (hg [] hgmem)
    | cons p ps =>
      cases ys with
      | nil => simp at hlen
      | cons y ys' => simp [groupMax, hys, pyMax]
  obtain ⟨ms, hms, _⟩ := mapOption_isSome (groupMax f) side hgm
  simp [sideMax, hms, pyMax]

/-- The pin-number measure never raises (`str()` accepts both strings and
integers). -/
theorem numLen_isSome (p : Pin) : (numLen p).isSome := rfl

/-- The pin-name measure is defined exactly on string names (`len` of an
integer raises `TypeError`). -/
theorem nameLen_isSome_of_str (p : Pin) (h : isStrVal p.name = true) :
    (nameLen p).isSome := by
  unfold nameLen
  cases hn : p.name with
  | str s => rfl
  | int m => rw [isStrVal.eq_def, hn] at h; cases h

/-- Counterexample to C8 as stated: the unit whose left side has no pin
groups and whose right side consists of one empty group is within the
claim's scope, yet both the shared longest-number computation and the
geometry computation raise (`max()` of an empty sequence), embedded as
`none`. -/
theorem c8_counterexample :
    longest_num [(([] : List (List Pin)), [([] : List Pin)])] = none ∧
      geometry (([] : List (List Pin)), [([] : List Pin)]) 0 = none :=
  ⟨rfl, rfl⟩

/-- C8 amended: for every unit in which one or both sides have no pin
groups — provided every group actually present is non-empty and (for the
name measure used by geometry) every pin name is a string — computing the
shared longest-pin-number length and the per-unit geometry does not
raise, and an empty side contributes 0 to the longest-name and
longest-number maxima. -/
theorem c8_empty_side_safety (unit : PinUnit) (n : Int)
    (_hempty : unit.1 = [] ∨ unit.2 = [])
    (hg1 : ∀ g ∈ unit.1, g ≠ []) (hg2 : ∀ g ∈ unit.2, g ≠ [])
    (hn1 : ∀ g ∈ unit.1, ∀ p ∈ g, isStrVal p.name = true)
    (hn2 : ∀ g ∈ unit.2, ∀ p ∈ g, isStrVal p.name = true) :
    (longest_num [unit]).isSome ∧ (geometry unit n).isSome ∧
      sideMax numLen ([] : List (List Pin)) = some 0 ∧
      sideMax nameLen ([] : List (List Pin)) = some 0 := by
  obtain ⟨l0, hl0⟩ := Option.isSome_iff_exists.mp
    (sideMax_isSome numLen unit.1 hg1 (fun g _ p _ => numLen_isSome p))
  obtain ⟨r0, hr0⟩ := Option.isSome_iff_exists.mp
    (sideMax_isSome numLen unit.2 hg2 (fun g _ p _ => numLen_isSome p))
  obtain ⟨a0, ha0⟩ := Option.isSome_iff_exists.mp
    (sideMax_isSome nameLen unit.1 hg1
      (fun g hgm p hp => nameLen_isSome_of_str p (hn1 g hgm p hp)))
  obtain ⟨b0, hb0⟩ := Option.isSome_iff_exists.mp
    (sideMax_isSome nameLen unit.2 hg2
      (fun g hgm p hp => nameLen_isSome_of_str p (hn2 g hgm p hp)))
  refine ⟨?_, ?_, rfl, rfl⟩
  · simp [longest_num, mapOption, hl0, hr0, pyMax]
  · simp [geometry, ha0, hb0]

/-- Witness for C8 amended at a right-side-only unit with one one-pin
group. -/
theorem c8_empty_side_safety_witness :
    (longest_num [(([] : List (List Pin)), [[⟨.str "A", .str "1", .inp⟩]])]).isSome ∧
      (geometry (([] : List (List Pin)), [[⟨.str "A", .str "1", .inp⟩]]) 1).isSome ∧
      sideMax numLen ([] : List (List Pin)) = some 0 ∧
      sideMax nameLen ([] : List (List Pin)) = some 0 :=
  c8_empty_side_safety (([] : List (List Pin)), [[⟨.str "A", .str "1", .inp⟩]]) 1
    (Or.inl rfl) (by simp) (by decide) (by simp) (by decide)

/-- Unfolding of bind on a present value in the `Option` monad. -/
theorem some_obind {α β : Type} (a : α) (f : α → Option β) :
    (some a >>= f) = f a := rfl

/-- Unfolding of bind on an absent value in the `Option` monad. -/
theorem none_obind {α β : Type} (f : α → Option β) :
    ((none : Option α) >>= f) = none := rfl

/-- The four fixed field lines built by `fields` (with their
presence/absence branching on the optional footprint and datasheet)
coincide with the claim-side header `specFieldHeader`. -/
theorem fieldHeader_eq (nm : String) (desig fp ds : Option String)
    (ocs : List (String × String)) (pv : PyVal) (fx fy : Int) :
    ["F0 \"" ++ desig.getD "IC" ++ "\" " ++ toString fx ++
       " " ++ toString fy ++ " 50 H V L CNN",
     "F1 \"" ++ nm ++ "\" " ++ toString fx ++ " " ++
       toString (-fy) ++ " 50 H V L CNN",
     (match fp with
      | some f2 => "F2 \"" ++ f2 ++ "\" " ++ toString fx ++ " " ++
          toString (-fy - 100) ++ " 50 H I L CNN"
      | none => "F2 \"\" " ++ toString fx ++ " " ++
          toString (-fy - 100) ++ " 50 H I L CNN"),
     (match ds with
      | some d3 => "F3 \"" ++ d3 ++ "\" " ++ toString fx ++ " " ++
          toString (-fy - 200) ++ " 50 H I L CNN"
      | none => "F3 \"\" " ++ toString fx ++ " " ++
          toString (-fy - 200) ++ " 50 H I L CNN")] =
      specFieldHeader ⟨nm, desig, fp, ds, ocs, pv⟩ fx fy := by
  cases fp <;> cases ds <;> simp [specFieldHeader, Option.getD]

/-- C5: whenever `fields` produces output, it consists of exactly the
four fixed field lines F0-F3 (with empty text standing in for an absent
footprint or datasheet), followed by one field line per order code at
consecutive indices starting at 4, in input order, each tagged with its
supplier; in particular no field line at index 4 or above exists when
the order-code list is empty. -/
theorem c5_field_indices (conf : Comp) (units : List PinUnit)
    (out : List String) (hf : fields conf units = some out) :
    ∃ fx fy : Int,
      out = specFieldHeader conf fx fy ++ ordercodeLines conf.ordercodes fx fy ∧
      out.length = 4 + conf.ordercodes.length ∧
      (conf.ordercodes = [] → out = specFieldHeader conf fx fy) ∧
      ∀ i : Nat, ∀ hi : i < conf.ordercodes.length,
        out.get? (4 + i) = some ("F" ++ toString (i + 4) ++ " \"" ++
          (conf.ordercodes.get ⟨i, hi⟩).2 ++ "\" " ++ toString fx ++ " " ++
          toString (-fy - (300 + (i : Int) * 100)) ++ " 50 H I L CNN \"" ++
          (conf.ordercodes.get ⟨i, hi⟩).1 ++ "\"") := by
  obtain ⟨nm, desig, fp, ds, ocs, pv⟩ := conf
  unfold fields at hf
  dsimp only at hf ⊢
  rcases hn : longest_num units with _ | n
  · rw [hn, none_obind] at hf; exact nomatch hf
  · rw [hn, some_obind] at hf
    rcases hg : mapOption (fun u => geometry u n) units with _ | geoms
    · rw [hg, none_obind] at hf; exact nomatch hf
    · rw [hg, some_obind] at hf
      rcases hw : pyMax (geoms.map fun g => g.1) with _ | width
      · rw [hw, none_obind] at hf; exact nomatch hf
      · rw [hw, some_obind] at hf
        rcases hh : pyMax (geoms.map fun g => g.2.1) with _ | height
        · rw [hh, none_obind] at hf; exact nomatch hf
        · rw [hh, some_obind] at hf
          injection hf with hf'
          refine ⟨(-width) / 2, height / 2 + 50, ?_⟩
          rw [← hf', fieldHeader_eq nm desig fp ds ocs pv]
          refine ⟨rfl, ?_, ?_, ?_⟩
          · simp [specFieldHeader, ordercodeLines]
            omega
          · intro h0
            rw [h0]
            simp [ordercodeLines]
          · intro i hi
            rw [List.get?_append_right (by simp [specFieldHeader])]
            have hlen4 : (specFieldHeader ⟨nm, desig, fp, ds, ocs, pv⟩
                ((-width) / 2) (height / 2 + 50)).length = 4 := rfl
            rw [hlen4]
            have hidx : 4 + i - 4 = i := by omega
            rw [hidx]
            unfold ordercodeLines
            rw [List.get?_map, List.get?_enum, List.get?_eq_get hi]
            rfl

/-- Witness for C5 at a concrete component with two order codes. -/
theorem c5_field_indices_witness :
    ∃ out, fields ⟨"PART", none, none, none, [("SUPA", "C-1"), ("SUPB", "C-2")], .vnone⟩
        [([[⟨.str "A", .str "1", .inp⟩]], ([] : List (List Pin)))] = some out ∧
      (∃ fx fy : Int,
        out = specFieldHeader
            ⟨"PART", none, none, none, [("SUPA", "C-1"), ("SUPB", "C-2")], .vnone⟩
            fx fy ++
          ordercodeLines [("SUPA", "C-1"), ("SUPB", "C-2")] fx fy ∧
        out.length = 4 + ([("SUPA", "C-1"), ("SUPB", "C-2")] : List (String × String)).length ∧
        (([("SUPA", "C-1"), ("SUPB", "C-2")] : List (String × String)) = [] →
          out = specFieldHeader
            ⟨"PART", none, none, none, [("SUPA", "C-1"), ("SUPB", "C-2")], .vnone⟩ fx fy) ∧
        ∀ i : Nat,
          ∀ hi : i < ([("SUPA", "C-1"), ("SUPB", "C-2")] : List (String × String)).length,
          out.get? (4 + i) = some ("F" ++ toString (i + 4) ++ " \"" ++
            (([("SUPA", "C-1"), ("SUPB", "C-2")] : List (String × String)).get ⟨i, hi⟩).2 ++
            "\" " ++ toString fx ++ " " ++
            toString (-fy - (300 + (i : Int) * 100)) ++ " 50 H I L CNN \"" ++
            (([("SUPA", "C-1"), ("SUPB", "C-2")] : List (String × String)).get ⟨i, hi⟩).1 ++
            "\"")) := by
  rcases hout : fields
      ⟨"PART", none, none, none, [("SUPA", "C-1"), ("SUPB", "C-2")], .vnone⟩
      [([[⟨.str "A", .str "1", .inp⟩]], ([] : List (List Pin)))] with _ | out
  · exact absurd hout (by decide)
  · exact ⟨out, rfl, c5_field_indices _ _ out hout⟩

/-- The inner pin loop realises the claim-side row assignment: starting
at row `r`, each successive pin of a group sits 100 units lower. -/
theorem drawGroup_eq (g : List Pin) (x : Int) (d : String) (l u y0 : Int) :
    ∀ r : Nat, drawGroup g x (y0 - 100 * (r : Int)) d l u =
      (groupRows g r).map
        (fun pr => xLine pr.1 x (y0 - 100 * (pr.2 : Int)) l d u) := by
  induction g with
  | nil => intro r; rfl
  | cons p ps ih =>
    intro r
    simp only [drawGroup, groupRows, List.map]
    rw [show y0 - 100 * (r : Int) - 100 = y0 - 100 * ((r + 1 : Nat) : Int) by
      push_cast; ring]
    rw [ih (r + 1)]

/-- The outer group loop realises the claim-side row assignment: groups
in input order, one extra gap row after each group. -/
theorem draw_pins_eq (x : Int) (d : String) (l u y0 : Int) :
    ∀ (gs : List (List Pin)) (r : Nat),
      draw_pins gs x (y0 - 100 * (r : Int)) d l u =
        (flatRows gs r).map
          (fun pr => xLine pr.1 x (y0 - 100 * (pr.2 : Int)) l d u) := by
  intro gs
  induction gs with
  | nil => intro r; rfl
  | cons g gs ih =>
    intro r
    simp only [draw_pins, flatRows, List.map_append]
    congr 1
    · exact drawGroup_eq g x d l u y0 r
    · rw [show y0 - 100 * (r : Int) - 100 * (g.length : Int) - 100 =
          y0 - 100 * ((r + g.length + 1 : Nat) : Int) by push_cast; ring]
      exact ih (r + g.length + 1)

/-- Forgetting the rows of `groupRows` recovers the group in input
order. -/
theorem groupRows_fst (g : List Pin) : ∀ r, (groupRows g r).map Prod.fst = g := by
  induction g with
  | nil => intro r; rfl
  | cons p ps ih => intro r; simp [groupRows, ih]

/-- Forgetting the rows of `flatRows` recovers all pins of the side in
input order. -/
theorem flatRows_fst (gs : List (List Pin)) :
    ∀ r, (flatRows gs r).map Prod.fst = gs.flatten := by
  induction gs with
  | nil => intro r; rfl
  | cons g gs ih =>
    intro r
    simp [flatRows, List.map_append, groupRows_fst, ih]

/-- One side of a unit, as drawn by `draw`, equals the claim-side layout
starting at row 0 (an empty side draws nothing, matching the guard in
`draw`). -/
theorem draw_pins_side_eq (side : List (List Pin)) (x0 : Int) (d : String)
    (l u y0 : Int) :
    (if side.isEmpty then [] else draw_pins side x0 y0 d l u) =
      (flatRows side 0).map
        (fun pr => xLine pr.1 x0 (y0 - 100 * (pr.2 : Int)) l d u) := by
  cases side with
  | nil => rfl
  | cons g gs =>
    simp only [List.isEmpty_cons, Bool.false_eq_true, if_false]
    conv_lhs => rw [show (y0 : Int) = y0 - 100 * ((0 : Nat) : Int) by push_cast; ring]
    exact draw_pins_eq x0 d l u y0 (g :: gs) 0

/-- C6: whenever `drawUnit` emits a unit, its output is the bounding box
followed by the left-side pins drawn right-pointing at
`x = -width/2 - stub`, top row at `height/2 - 50` (anchored at the
top-left corner, offset outward by the stub length), each successive pin
100 units lower with one extra row after each group, pins and groups in
input order; the right-side pins follow with the mirrored x origin,
left-pointing, by the same independent vertical algorithm. -/
theorem c6_pin_placement (unit : PinUnit) (n uidx : Int) (lines : List String)
    (hd : drawUnit unit n uidx = some lines) :
    ∃ w h l : Int, geometry unit n = some (w, h, l) ∧
      lines = sLine w h uidx ::
        ((flatRows unit.1 0).map (fun pr =>
            xLine pr.1 ((-w) / 2 - l) (h / 2 - 50 - 100 * (pr.2 : Int)) l "R" uidx) ++
         (flatRows unit.2 0).map (fun pr =>
            xLine pr.1 (-((-w) / 2 - l)) (h / 2 - 50 - 100 * (pr.2 : Int)) l "L" uidx)) ∧
      (flatRows unit.1 0).map Prod.fst = unit.1.flatten ∧
      (flatRows unit.2 0).map Prod.fst = unit.2.flatten := by
  unfold drawUnit at hd
  rcases hg : geometry unit n with _ | ⟨w, h, l⟩
  · rw [hg, none_obind] at hd; exact nomatch hd
  · rw [hg, some_obind] at hd
    dsimp only at hd
    injection hd with hd'
    refine ⟨w, h, l, rfl, ?_, flatRows_fst unit.1 0, flatRows_fst unit.2 0⟩
    rw [← hd']
    congr 1
    rw [draw_pins_side_eq unit.1 ((-w) / 2 - l) "R" l uidx (h / 2 - 50),
      draw_pins_side_eq unit.2 (-((-w) / 2 - l)) "L" l uidx (h / 2 - 50)]

/-- Witness for C6 at a concrete unit: two left groups of one pin each
and one right group of one pin. -/
theorem c6_pin_placement_witness :
    ∃ lines, drawUnit ([[⟨.str "A", .str "1", .inp⟩], [⟨.str "B", .str "2", .inp⟩]],
        [[⟨.str "C", .str "3", .out⟩]]) 1 0 = some lines ∧
      (∃ w h l : Int,
        geometry ([[⟨.str "A", .str "1", .inp⟩], [⟨.str "B", .str "2", .inp⟩]],
          [[⟨.str "C", .str "3", .out⟩]]) 1 = some (w, h, l) ∧
        lines = sLine w h 0 ::
          ((flatRows [[⟨.str "A", .str "1", .inp⟩], [⟨.str "B", .str "2", .inp⟩]] 0).map
            (fun pr => xLine pr.1 ((-w) / 2 - l) (h / 2 - 50 - 100 * (pr.2 : Int)) l "R" 0) ++
           (flatRows [[⟨.str "C", .str "3", .out⟩]] 0).map
            (fun pr => xLine pr.1 (-((-w) / 2 - l)) (h / 2 - 50 - 100 * (pr.2 : Int)) l "L" 0)) ∧
        (flatRows [[⟨.str "A", .str "1", .inp⟩], [⟨.str "B", .str "2", .inp⟩]] 0).map Prod.fst =
          [[⟨.str "A", .str "1", .inp⟩], [⟨.str "B", .str "2", .inp⟩]].flatten ∧
        (flatRows [[⟨.str "C", .str "3", .out⟩]] 0).map Prod.fst =
          [[⟨.str "C", .str "3", .out⟩]].flatten) := by
  rcases hout : drawUnit ([[⟨.str "A", .str "1", .inp⟩], [⟨.str "B", .str "2", .inp⟩]],
      [[⟨.str "C", .str "3", .out⟩]]) 1 0 with _ | lines
  · exact absurd hout (by decide)
  · exact ⟨lines, rfl, c6_pin_placement _ 1 0 lines hout⟩

/-- Counterexample to C4 as stated: a valid single-unit, left-only
structure of two one-pin groups whose pin names are the integers 5 and 6
(the data model allows integer names). The `isinstance(..., str)`
heuristic does not fire, so the structure is treated as a list of units:
normalisation returns one unit whose left side is the first group alone
and whose right side is the second group — not the claimed single unit
with an empty right side. -/
theorem c4_counterexample :
    normalise_pins
        (encSingleLeft [[⟨.int 5, .str "1", .inp⟩], [⟨.int 6, .str "2", .inp⟩]]) =
      .ok [(encGroup [⟨.int 5, .str "1", .inp⟩], encGroup [⟨.int 6, .str "2", .inp⟩])] ∧
      encGroup [⟨.int 6, .str "2", .inp⟩] ≠ .vlist [] ∧
      normalise_pins
          (encSingleLeft [[⟨.int 5, .str "1", .inp⟩], [⟨.int 6, .str "2", .inp⟩]]) ≠
        .ok [(encSide [[⟨.int 5, .str "1", .inp⟩], [⟨.int 6, .str "2", .inp⟩]],
          .vlist [])] := by
  refine ⟨rfl, by simp [encGroup], ?_⟩
  intro hcontra
  have h1 : normalise_pins
      (encSingleLeft [[⟨.int 5, .str "1", .inp⟩], [⟨.int 6, .str "2", .inp⟩]]) =
      .ok [(encGroup [⟨.int 5, .str "1", .inp⟩], encGroup [⟨.int 6, .str "2", .inp⟩])] :=
    rfl
  rw [h1] at hcontra
  simp [encGroup, encSide, encPin, encVal] at hcontra

/-- C4 amended: for every valid single-unit, left-only pin structure
whose first pin's name is a string (the shape heuristic inspects it with
`isinstance(..., str)`; an integer first name misclassifies the
structure, see the counterexample), normalisation returns exactly one
`(left, right)` unit whose right side is the empty list and whose left
groups are the input groups in order. -/
theorem c4_single_unit_left_only (p0 : Pin) (ps : List Pin)
    (rest : List (List Pin)) (s : String) (hname : p0.name = .str s) :
    normalise_pins (encSingleLeft ((p0 :: ps) :: rest)) =
      .ok [(encSide ((p0 :: ps) :: rest), .vlist [])] := by
  obtain ⟨nm, num, t⟩ := p0
  have hnm : nm = .str s := hname
  subst hnm
  rfl

/-- Unfolding of bind on a success value in the `Except PyErr` monad. -/
theorem ok_bind {α β : Type} (a : α) (f : α → Except PyErr β) :
    (Except.ok a >>= f : Except PyErr β) = f a := rfl

/-- Unfolding of bind on an error value in the `Except PyErr` monad. -/
theorem error_bind {α β : Type} (e : PyErr) (f : α → Except PyErr β) :
    ((Except.error e : Except PyErr α) >>= f) = .error e := rfl

/-- Subscripting raises only `IndexError` or `TypeError`. -/
theorem pySub_error {v : PyVal} {i : Nat} {e : PyErr}
    (h : pySub v i = .error e) : e = .indexError ∨ e = .typeError := by
  unfold pySub at h
  split at h
  · split at h
    · exact nomatch h
    · injection h with h'; exact Or.inl h'.symm
  · split at h
    · exact nomatch h
    · injection h with h'; exact Or.inl h'.symm
  · injection h with h'; exact Or.inr h'.symm

/-- Subscripting never raises `ValueError`. -/
theorem pySub_ne_vE {v : PyVal} {i : Nat} {e : PyErr}
    (h : pySub v i = .error e) : e ≠ .valueError := by
  rcases pySub_error h with rfl | rfl <;> decide

/-- `len` raises only `TypeError`. -/
theorem pyLen_error {v : PyVal} {e : PyErr}
    (h : pyLen v = .error e) : e = .typeError := by
  cases v with
  | vnone => injection h with h'; exact h'.symm
  | vint n => injection h with h'; exact h'.symm
  | vlist xs => exact nomatch h
  | vstr s => exact nomatch h

/-- A bind whose parts cannot produce `ValueError` cannot produce it
either. -/
theorem bind_ne_vE {α β : Type} {m : Except PyErr α} {f : α → Except PyErr β}
    (hm : ∀ e, m = .error e → e ≠ .valueError)
    (hf : ∀ a e, f a = .error e → e ≠ .valueError) :
    ∀ e, (m >>= f) = .error e → e ≠ .valueError := by
  intro e h
  cases m with
  | error e' =>
    rw [error_bind] at h
    injection h with h'
    subst h'
    exact hm e' rfl
  | ok a =>
    rw [ok_bind] at h
    exact hf a e h

/-- The shared tail of the shape-sniffing prologue — fetch the first
sub-element, test `isinstance(..., str)`, wrap or iterate — raises only
`IndexError` or `TypeError`. -/
theorem sniff_branch_ne_vE (pins fpg : PyVal) :
    ∀ e, (pySub fpg 0 >>= fun c =>
      (if isStr c then (pure [pins] : Except PyErr (List PyVal))
       else match pins with
         | .vlist us => pure us
         | .vstr s => pure (s.toList.map (fun ch => PyVal.vstr ch.toString))
         | _ => .error .typeError)) = .error e → e ≠ .valueError := by
  refine bind_ne_vE (fun e h => pySub_ne_vE h) ?_
  intro c
  dsimp only
  intro e h
  split at h
  · exact nomatch h
  · split at h
    · exact nomatch h
    · exact nomatch h
    · injection h with h'; subst h'; decide

/-- The shape-sniffing prologue raises only `IndexError` or `TypeError`,
never the `ValueError` of a malformed unit. -/
theorem sniff_no_vE (pins : PyVal) :
    ∀ e, sniff pins = .error e → e ≠ .valueError := by
  unfold sniff
  refine bind_ne_vE (fun e h => pySub_ne_vE h) ?_
  intro a; dsimp only
  refine bind_ne_vE (fun e h => pySub_ne_vE h) ?_
  intro b; dsimp only
  refine bind_ne_vE (fun e h => pySub_ne_vE h) ?_
  intro fpg0; dsimp only
  cases fpg0 with
  | vnone =>
    refine bind_ne_vE (fun e h => pySub_ne_vE h) ?_
    intro a1; dsimp only
    refine bind_ne_vE (fun e h => pySub_ne_vE h) ?_
    intro b1; dsimp only
    refine bind_ne_vE (fun e h => pySub_ne_vE h) ?_
    intro fpg; dsimp only
    exact sniff_branch_ne_vE pins fpg
  | vint m => exact sniff_branch_ne_vE pins (.vint m)
  | vstr s => exact sniff_branch_ne_vE pins (.vstr s)
  | vlist xs => exact sniff_branch_ne_vE pins (.vlist xs)

/-- In the two accepted lengths (1 and 2) the unit loop body cannot
raise `ValueError`: its only error sources are subscripts. -/
theorem processUnit_len12_ne_vE (u : PyVal) (m : Int)
    (hm : pyLen u = .ok m) (h12 : m = 1 ∨ m = 2) :
    ∀ e, processUnit u = .error e → e ≠ .valueError := by
  unfold processUnit
  rw [hm, ok_bind]
  rcases h12 with rfl | rfl
  · rw [if_pos rfl]
    refine bind_ne_vE (fun e h => pySub_ne_vE h) ?_
    intro l; dsimp only
    exact fun e h => nomatch h
  · rw [if_neg (by decide), if_pos rfl]
    refine bind_ne_vE (fun e h => pySub_ne_vE h) ?_
    intro a; dsimp only
    refine bind_ne_vE (fun e h => pySub_ne_vE h) ?_
    intro b; dsimp only
    refine bind_ne_vE (fun e h => pySub_ne_vE h) ?_
    intro c; dsimp only
    cases c with
    | vnone =>
      refine bind_ne_vE (fun e h => pySub_ne_vE h) ?_
      intro r; dsimp only
      exact fun e h => nomatch h
    | vint k =>
      refine bind_ne_vE (fun e h => pySub_ne_vE h) ?_
      intro l; dsimp only
      refine bind_ne_vE (fun e h => pySub_ne_vE h) ?_
      intro r; dsimp only
      exact fun e h => nomatch h
    | vstr s =>
      refine bind_ne_vE (fun e h => pySub_ne_vE h) ?_
      intro l; dsimp only
      refine bind_ne_vE (fun e h => pySub_ne_vE h) ?_
      intro r; dsimp only
      exact fun e h => nomatch h
    | vlist xs =>
      refine bind_ne_vE (fun e h => pySub_ne_vE h) ?_
      intro l; dsimp only
      refine bind_ne_vE (fun e h => pySub_ne_vE h) ?_
      intro r; dsimp only
      exact fun e h => nomatch h

/-- A unit whose Python length is neither 1 nor 2 matches none of the
three accepted per-unit forms. -/
theorem matchesAcceptedForm_false_of_len (u : PyVal) (m : Int)
    (hm : pyLen u = .ok m) (h1 : m ≠ 1) (h2 : m ≠ 2) :
    matchesAcceptedForm u = false := by
  cases u with
  | vnone => rfl
  | vint n => rfl
  | vstr s => rfl
  | vlist xs =>
    have hm' : (xs.length : Int) = m := by injection hm
    rcases xs with _ | ⟨x, _ | ⟨y, _ | ⟨z, rest⟩⟩⟩
    · rfl
    · exact absurd hm'.symm h1
    · exact absurd hm'.symm h2
    · rfl

/-- The unit loop body raises `ValueError` exactly on units whose Python
length is neither 1 nor 2 (reverse direction). -/
theorem processUnit_vE_of_len (u : PyVal) (m : Int)
    (hm : pyLen u = .ok m) (h1 : m ≠ 1) (h2 : m ≠ 2) :
    processUnit u = .error .valueError := by
  unfold processUnit
  rw [hm, ok_bind]
  rw [if_neg h1, if_neg h2]

/-- The unit loop body raises `ValueError` only on units whose Python
length is defined and is neither 1 nor 2 (forward direction). -/
theorem processUnit_vE_only (u : PyVal)
    (h : processUnit u = .error .valueError) :
    ∃ m : Int, pyLen u = .ok m ∧ m ≠ 1 ∧ m ≠ 2 := by
  rcases hlen : pyLen u with e | m
  · exfalso
    unfold processUnit at h
    rw [hlen, error_bind] at h
    injection h with h'
    have := pyLen_error hlen
    subst h'
    exact absurd this (by decide)
  · by_cases hm1 : m = 1
    · exact absurd rfl (processUnit_len12_ne_vE u m hlen (Or.inl hm1) .valueError h)
    · by_cases hm2 : m = 2
      · exact absurd rfl (processUnit_len12_ne_vE u m hlen (Or.inr hm2) .valueError h)
      · exact ⟨m, rfl, hm1, hm2⟩

/-- A failing unit loop pinpoints a failing unit. -/
theorem processUnits_error_mem :
    ∀ (us : List PyVal) (e : PyErr), processUnits us = .error e →
      ∃ u ∈ us, processUnit u = .error e := by
  intro us
  induction us with
  | nil => exact fun e h => nomatch h
  | cons u us ih =>
    intro e h
    unfold processUnits at h
    rcases hu : processUnit u with e' | p
    · rw [hu, error_bind] at h
      injection h with h'
      subst h'
      exact ⟨u, by simp, hu⟩
    · rw [hu, ok_bind] at h
      rcases hus : processUnits us with e'' | rest
      · rw [hus, error_bind] at h
        injection h with h'
        subst h'
        obtain ⟨w, hw, hw2⟩ := ih e'' hus
        exact ⟨w, by simp [hw], hw2⟩
      · rw [hus, ok_bind] at h
        exact nomatch h

/-- Counterexample to C7 as stated: the unit `[[], [group]]` (two lists
whose first is empty, rather than the `None` marker) matches none of the
three accepted forms, yet normalisation raises `IndexError` at the
`pins[0][0][0]` inspection, not the claimed MalformedPinsError
(`ValueError`). -/
theorem c7_counterexample :
    matchesAcceptedForm
        (.vlist [.vlist [], encSide [[⟨.str "A", .str "1", .inp⟩]]]) = false ∧
      normalise_pins
          (.vlist [.vlist [.vlist [], encSide [[⟨.str "A", .str "1", .inp⟩]]]]) =
        .error .indexError ∧
      PyErr.indexError ≠ PyErr.valueError :=
  ⟨rfl, rfl, by decide⟩

/-- C7 amended: normalisation raises MalformedPinsError (the
`ValueError`) for a per-unit shape exactly when that unit's length is
neither 1 nor 2 — such units match none of the three accepted forms —
and a `ValueError` escaping `normalise_pins` always comes from such a
unit of the (successfully sniffed) unit list; shapes matching none of
the accepted forms may instead fail earlier with `IndexError` or
`TypeError` (see the counterexample), and an error result carries no
partial output. -/
theorem c7_malformed_pins_error :
    (∀ u : PyVal, processUnit u = .error .valueError ↔
        ∃ m : Int, pyLen u = .ok m ∧ m ≠ 1 ∧ m ≠ 2) ∧
      (∀ u : PyVal, processUnit u = .error .valueError →
        matchesAcceptedForm u = false) ∧
      (∀ pins : PyVal, normalise_pins pins = .error .valueError →
        ∃ us, sniff pins = .ok us ∧ ∃ u ∈ us,
          processUnit u = .error .valueError ∧ matchesAcceptedForm u = false) := by
  refine ⟨fun u => ⟨processUnit_vE_only u, ?_⟩, fun u h => ?_, fun pins h => ?_⟩
  · rintro ⟨m, hm, h1, h2⟩
    exact processUnit_vE_of_len u m hm h1 h2
  · obtain ⟨m, hm, h1, h2⟩ := processUnit_vE_only u h
    exact matchesAcceptedForm_false_of_len u m hm h1 h2
  · unfold normalise_pins at h
    rcases hs : sniff pins with e | us
    · rw [hs, error_bind] at h
      injection h with h'
      exact absurd h' (sniff_no_vE pins e hs)
    · rw [hs, ok_bind] at h
      obtain ⟨u, hu, hpu⟩ := processUnits_error_mem us .valueError h
      obtain ⟨m, hm, h1, h2⟩ := processUnit_vE_only u hpu
      exact ⟨us, rfl, u, hu, hpu, matchesAcceptedForm_false_of_len u m hm h1 h2⟩

/-- Witness for C7 amended: a unit of three sides raises the
`ValueError`, both at the unit level and through `normalise_pins`. -/
theorem c7_malformed_pins_error_witness :
    processUnit (.vlist [.vstr "x", .vstr "y", .vstr "z"]) = .error .valueError ∧
      (∃ us, sniff (.vlist [.vlist [encSide [[⟨.str "A", .str "1", .inp⟩]],
          encSide [[⟨.str "A", .str "1", .inp⟩]],
          encSide [[⟨.str "A", .str "1", .inp⟩]]]]) = .ok us ∧
        ∃ u ∈ us, processUnit u = .error .valueError ∧
          matchesAcceptedForm u = false) :=
  ⟨(c7_malformed_pins_error.1 _).mpr ⟨3, rfl, by decide, by decide⟩,
   c7_malformed_pins_error.2.2 _ rfl⟩

/-- The unit loop preserves the number of units on success. -/
theorem processUnits_ok_length :
    ∀ (us : List PyVal) (ps : List (PyVal × PyVal)),
      processUnits us = .ok ps → ps.length = us.length := by
  intro us
  induction us with
  | nil =>
    intro ps h
    injection h with h'
    subst h'
    rfl
  | cons u us ih =>
    intro ps h
    unfold processUnits at h
    rcases hu : processUnit u with e | p
    · rw [hu, error_bind] at h; exact nomatch h
    · rw [hu, ok_bind] at h
      rcases hrest : processUnits us with e | rest
      · rw [hrest, error_bind] at h; exact nomatch h
      · rw [hrest, ok_bind] at h
        injection h with h'
        subst h'
        simp [ih rest hrest]

/-- The tail of the sniffing phase returns a non-empty unit list whenever
`pins[0]` was successfully fetched. -/
theorem sniff_tail_ok_ne_nil (pins fpg a : PyVal) {us : List PyVal}
    (h : (pySub fpg 0 >>= fun c =>
      (if isStr c then (pure [pins] : Except PyErr (List PyVal))
       else match pins with
         | .vlist xs => pure xs
         | .vstr s => pure (s.toList.map (fun ch => PyVal.vstr ch.toString))
         | _ => .error .typeError)) = .ok us)
    (h1 : pySub pins 0 = .ok a) : us ≠ [] := by
  rcases hc : pySub fpg 0 with e | c
  · rw [hc, error_bind] at h; exact nomatch h
  · rw [hc, ok_bind] at h
    split at h
    · injection h with h'
      subst h'
      simp
    · cases pins with
      | vnone => exact nomatch h1
      | vint m => exact nomatch h1
      | vlist xs =>
        injection h with h'
        subst h'
        cases xs with
        | nil => exact nomatch h1
        | cons x xs' => simp
      | vstr s =>
        injection h with h'
        subst h'
        cases hsl : s.toList with
        | nil =>
          simp only [pySub] at h1
          rw [hsl] at h1
          exact nomatch h1
        | cons c' cs => simp [hsl]

/-- The sniffing phase never returns an empty unit list: either the input
was wrapped into a singleton, or the first subscript already proved the
iterated list (or string) non-empty. -/
theorem sniff_ok_ne_nil {pins : PyVal} {us : List PyVal}
    (h : sniff pins = .ok us) : us ≠ [] := by
  unfold sniff at h
  rcases h1 : pySub pins 0 with e | a
  · rw [h1, error_bind] at h; exact nomatch h
  · rw [h1, ok_bind] at h
    rcases h2 : pySub a 0 with e | b
    · rw [h2, error_bind] at h; exact nomatch h
    · rw [h2, ok_bind] at h
      rcases h3 : pySub b 0 with e | fpg0
      · rw [h3, error_bind] at h; exact nomatch h
      · rw [h3, ok_bind] at h
        cases fpg0 with
        | vnone =>
          dsimp only at h
          rcases h4 : pySub pins 1 with e | a1
          · rw [h4, error_bind] at h; exact nomatch h
          · rw [h4, ok_bind] at h
            rcases h5 : pySub a1 0 with e | b1
            · rw [h5, error_bind] at h; exact nomatch h
            · rw [h5, ok_bind] at h
              rcases h6 : pySub b1 0 with e | fpg
              · rw [h6, error_bind] at h; exact nomatch h
              · rw [h6, ok_bind] at h
                exact sniff_tail_ok_ne_nil pins fpg a h h1
        | vint m => exact sniff_tail_ok_ne_nil pins (.vint m) a h h1
        | vstr s => exact sniff_tail_ok_ne_nil pins (.vstr s) a h h1
        | vlist xs => exact sniff_tail_ok_ne_nil pins (.vlist xs) a h h1

/-- Normalisation never returns an empty unit list. -/
theorem normalise_ok_ne_nil {pins : PyVal} {units : List (PyVal × PyVal)}
    (h : normalise_pins pins = .ok units) : units ≠ [] := by
  unfold normalise_pins at h
  rcases hs : sniff pins with e | us
  · rw [hs, error_bind] at h; exact nomatch h
  · rw [hs, ok_bind] at h
    have hlen := processUnits_ok_length us units h
    have hne := sniff_ok_ne_nil hs
    intro hnil
    subst hnil
    exact hne (List.eq_nil_of_length_eq_zero hlen.symm)

/-- C9: the `DEF` header line of each component carries unit count and
locked flag, and the locked flag is `"L"` exactly when the component has
more than one unit and `"F"` exactly when it has a single unit (the
normalised unit list is never empty). -/
theorem c9_locked_flag (elm : Comp) (units : List (PyVal × PyVal))
    (h : normalise_pins elm.pins = .ok units) :
    defLine elm units = "DEF " ++ elm.name ++ " " ++ elm.designator.getD "IC" ++
        " 0 40 Y Y " ++ toString units.length ++ " " ++ lockedFlag units ++ " N" ∧
      (lockedFlag units = "L" ↔ 1 < units.length) ∧
      (lockedFlag units = "F" ↔ units.length = 1) := by
  have hne := normalise_ok_ne_nil h
  have hpos : 0 < units.length := by
    cases units with
    | nil => exact absurd rfl hne
    | cons u us => simp
  refine ⟨rfl, ?_, ?_⟩
  · unfold lockedFlag
    split
    · rename_i h1
      rw [h1]
      decide
    · rename_i h1
      simp only [true_iff]
      omega
  · unfold lockedFlag
    split
    · rename_i h1
      rw [h1]
      decide
    · rename_i h1
      constructor
      · intro hFL
        exact absurd hFL (by decide)
      · intro hlen
        exact absurd hlen h1

/-- Witness for C9 at a concrete single-unit component. -/
theorem c9_locked_flag_witness :
    defLine ⟨"PART", none, none, none, [], encSingleLeft [[⟨.str "A", .str "1", .inp⟩]]⟩
        [(encSide [[⟨.str "A", .str "1", .inp⟩]], .vlist [])] =
      "DEF " ++ "PART" ++ " " ++ "IC" ++ " 0 40 Y Y " ++ toString (1 : Nat) ++
        " " ++ lockedFlag [(encSide [[⟨.str "A", .str "1", .inp⟩]], .vlist [])] ++
        " N" ∧
      (lockedFlag [(encSide [[⟨.str "A", .str "1", .inp⟩]], .vlist [])] = "L" ↔
        1 < (1 : Nat)) ∧
      (lockedFlag [(encSide [[⟨.str "A", .str "1", .inp⟩]], .vlist [])] = "F" ↔
        (1 : Nat) = 1) :=
  c9_locked_flag
    ⟨"PART", none, none, none, [], encSingleLeft [[⟨.str "A", .str "1", .inp⟩]]⟩
    [(encSide [[⟨.str "A", .str "1", .inp⟩]], .vlist [])] rfl

/-- Witness for C4 amended at a concrete two-group input. -/
theorem c4_single_unit_left_only_witness :
    normalise_pins
        (encSingleLeft [[⟨.str "A", .str "1", .inp⟩], [⟨.str "GND", .str "2", .pwrin⟩]]) =
      .ok [(encSide [[⟨.str "A", .str "1", .inp⟩], [⟨.str "GND", .str "2", .pwrin⟩]],
        .vlist [])] :=
  c4_single_unit_left_only ⟨.str "A", .str "1", .inp⟩ []
    [[⟨.str "GND", .str "2", .pwrin⟩]] "A" rfl

end KicadAutogen

